import Mathlib

/-!
Shallow embedding of `irlib/survey.py` (the `Survey` class, `HDFpath2fid`,
and `EmptyLineError`), together with proofs settling the specification
claims about it.  Each definition is translated from the Python source;
line numbers in comments refer to `src/irlib/survey.py`.
-/

/-- Python exception classes that appear in `survey.py` or can be raised by the
operations modelled here. -/
inductive PyErr
  | ioError
  | typeError
  | valueError
  | nameError
  | keyError
  | attributeError
  | emptyLineError
  | exceptionRaised
  deriving DecidableEq, Repr

/-- Outcome of calling a Python method: a returned value, a bare `return`
(i.e. the value `None`), or a raised exception. -/
inductive PyOutcome (α : Type)
  | val (a : α)
  | noneReturn
  | raised (e : PyErr)
  deriving DecidableEq, Repr

/-! ### Python list-slice semantics (ExtractLine lines 202-209)

`ExtractLine` applies `datasets = datasets[:bounds[1]]` and then
`datasets = datasets[bounds[0]:]`.  We embed CPython's slice-endpoint
normalization: a negative endpoint counts from the end of the list and
clamps at 0, a non-negative endpoint clamps at the length. -/

/-- CPython slice-endpoint normalization for a sequence of length `n`. -/
def pyClamp (n : Nat) (i : Int) : Nat :=
  if i < 0 then (i + n).toNat else min i.toNat n

/-- Python `l[:hi]`. -/
def pyTakeTo (l : List α) (hi : Int) : List α :=
  l.take (pyClamp l.length hi)

/-- Python `l[lo:]`. -/
def pyDropFrom (l : List α) (lo : Int) : List α :=
  l.drop (pyClamp l.length lo)

/-- Python `l[lo:hi]`: the elements from normalized index `lo` (inclusive)
to normalized index `hi` (exclusive). -/
def pySlice (l : List α) (lo hi : Int) : List α :=
  (l.take (pyClamp l.length hi)).drop (pyClamp l.length lo)

/-- Bounds application of `ExtractLine` (survey.py lines 206-209):
`if bounds[1] != None: datasets = datasets[:bounds[1]]` followed by
`if bounds[0] != None: datasets = datasets[bounds[0]:]`. -/
def applyBounds (bounds : Option Int × Option Int) (l : List α) : List α :=
  let l1 := match bounds.2 with
    | none => l
    | some hi => pyTakeTo l hi
  match bounds.1 with
  | none => l1
  | some lo => pyDropFrom l1 lo

/-! ### Dataset nodes and the array assembly of ExtractLine (lines 223-240)

A node visited by `f[path].visit` under a line group.  `path` is the list
of components of the name relative to the line group (the Python string
`"/".join(path)`); `samples` is the leaf's sample vector; `readOk` is
false when reading the dataset (`line_ptr[dataset][:]`) raises
`ValueError` (the source anticipates this for empty datasets). -/
structure HNode where
  path : List String
  isDataset : Bool
  readOk : Bool
  samples : List Int
  deriving DecidableEq, Repr

/-- Python `max` on a list of naturals (`max(nsamples)`, line 229); the
source only applies it to non-empty lists (the empty case raises
`ValueError` and is modelled in `ExtractArr`). -/
def maxNat (l : List Nat) : Nat :=
  l.foldl Nat.max 0

/-- Maximum sample count across the kept datasets (`maxsamples`, line 229). -/
def maxSamples (ds : List HNode) : Nat :=
  maxNat (ds.map (fun d => d.samples.length))

/-- Numpy row assignment `arr[j, :n] = xs` restricted to one row: overwrite
the first `xs.length` entries of `row`. -/
def npAssign (row xs : List Int) : List Int :=
  xs ++ row.drop xs.length

/-- One iteration of the fill loop (line 232): `arr[j, :nsamples[j]] = line_ptr[dataset][:]`
for the enumerated pair `p = (j, samples)`. -/
def assembleStep (arr : List (List Int)) (p : Nat × List Int) : List (List Int) :=
  arr.set p.1 (npAssign (arr.getD p.1 []) p.2)

/-- The fill loop of lines 230-232:
`arr = np.zeros((len(datasets), maxsamples))` followed by
`for j, dataset in enumerate(datasets): arr[j, :nsamples[j]] = line_ptr[dataset][:]`. -/
def assembleArr (dss : List (List Int)) : List (List Int) :=
  (dss.enum).foldl assembleStep
    (List.replicate dss.length (List.replicate (maxNat (dss.map List.length)) 0))

/-- Numpy transpose `arr.T` of a `k × m` array stored as a list of rows:
the result is `m × k` with entry `(i, j)` equal to `arr[j][i]`. -/
def npTranspose (m k : Nat) (arr : List (List Int)) : List (List Int) :=
  (List.range m).map (fun i => (List.range k).map (fun j => (arr.getD j []).getD i 0))

/-- Array-assembly step of `ExtractLine` (lines 226-240): compute the
per-dataset sample counts, take their maximum, fill a zero-initialized
rectangular array row by row, and return its transpose.  `max` on an empty
`nsamples` list raises `ValueError`, and a failing dataset read raises
`ValueError`; both are caught by the `except ValueError` handler, which
writes a diagnostic to stderr and executes a bare `return` (Python
`None`). -/
def ExtractArr (ds : List HNode) : PyOutcome (List (List Int)) :=
  if ds.isEmpty then .noneReturn
  else if ds.all (fun d => d.readOk) then
    .val (npTranspose (maxSamples ds) ds.length
      (assembleArr (ds.map (fun d => d.samples))))
  else .noneReturn

/-! ### Channel filtering and location sort of ExtractLine (lines 187-200) -/

/-- Python substring test `sub in s`. -/
def strContains (s sub : String) : Bool :=
  decide (sub.toList <:+: s.toList)

/-- The `datacapture` argument of `ExtractLine`: either a plain integer or an
iterable of integers (the source dispatches on `hasattr(datacapture, "__iter__")`,
line 187). -/
inductive PySelector
  | single (dc : Int)
  | iter (dcs : List Int)
  deriving DecidableEq, Repr

/-- Embeds `allowed_datacaptures` (lines 187-190). -/
def allowedDatacaptures : PySelector → List String
  | .iter dcs => dcs.map (fun dc => "datacapture_" ++ toString dc)
  | .single dc => ["datacapture_" ++ toString dc]

/-- The absolute HDF name `ds.name` of a node visited under `line_<line>`:
the line-group path joined with the components of the relative name. -/
def dsFullName (line : Int) (d : HNode) : String :=
  "/line_" ++ toString line ++ "/" ++ String.intercalate ("/") d.path

/-- Embeds `name.split("/")[-2]` (line 195): the parent channel-group component of
the relative name.  (Python raises `IndexError` on names with fewer than two
components; visited leaves always have three.) -/
def parentGroupName (d : HNode) : String :=
  d.path.getD (d.path.length - 2) ("")

/-- The nested filter of lines 192-195: keep elements that are datasets,
whose absolute name does not contain `"picked"`, and whose parent
channel-group component is one of the allowed datacaptures. -/
def keepDataset (line : Int) (allowed : List String) (d : HNode) : Bool :=
  d.isDataset && !(strContains (dsFullName line d) ("picked")) &&
    allowed.contains (parentGroupName d)

/-- Embeds `int(s.split('/')[0].split('_')[1])` (line 200): the integer location
index embedded in the first component of the relative name.  (Python raises
`ValueError` on unparsable names; modelled with default 0.) -/
def locKey (d : HNode) : Int :=
  ((((d.path.headD ("")).splitOn ("_")).getD 1 ("")).toInt?).getD 0

/-- Lines 192-200 of `ExtractLine`: filter the visited nodes down to the
allowed datasets, then sort them by location number (`datasets.sort(key=...)`,
a stable ascending sort). -/
def ExtractDatasets (line : Int) (nodes : List HNode) (sel : PySelector) : List HNode :=
  (nodes.filter (keepDataset line (allowedDatacaptures sel))).mergeSort
    (fun a b => decide (locKey a ≤ locKey b))

/-! ### The FID codec `HDFpath2fid` (lines 291-297) -/

/-- Python `str(n)` for a non-negative integer: the decimal digit characters,
most significant first. -/
def decChars (n : Nat) : List Char :=
  if h : n < 10 then [Char.ofNat (48 + n)]
  else
    have : n / 10 < n := Nat.div_lt_self (by omega) (by omega)
    decChars (n / 10) ++ [Char.ofNat (48 + n % 10)]
termination_by n

/-- Python `s.rjust(4, '0')`: left-pad with `'0'` to width 4. -/
def rjust4 (s : List Char) : List Char :=
  List.replicate (4 - s.length) '0' ++ s

/-- The 4-component address `(line, location, datacapture, echogram)` parsed
out of an HDF path by line 294 of `HDFpath2fid`. -/
structure ContainerPath where
  lin : Nat
  loc : Nat
  dc : Nat
  ec : Nat
  deriving DecidableEq, Repr

/-- Embeds `HDFpath2fid` (lines 291-297) applied to the parsed 4-component path:
`fid = str(lin).rjust(4,'0') + str(loc).rjust(4,'0') + str(dc).rjust(4,'0') + str(ec).rjust(4,'0')`. -/
def HDFpath2fid (p : ContainerPath) : String :=
  ⟨rjust4 (decChars p.lin) ++ (rjust4 (decChars p.loc) ++
    (rjust4 (decChars p.dc) ++ rjust4 (decChars p.ec)))⟩

/-- Decimal value of a digit-character list (used to invert `decChars`). -/
def decValChars (l : List Char) : Nat :=
  l.foldl (fun a c => 10 * a + (c.toNat - 48)) 0

/-! ### The HDF store, Survey construction, retention map and writing -/

/-- A location group inside a line: its name and the names of the channel
(`datacapture`) groups under it. -/
structure HLocation where
  name : String
  channels : List String
  deriving DecidableEq, Repr

/-- A top-level member of the HDF file: a line group (holding locations) or
a top-level dataset. -/
inductive HMember
  | group (locs : List HLocation)
  | dataset
  deriving DecidableEq, Repr

/-- The HDF store: the ordered list of top-level members (`list(f)` is the
list of their names). -/
structure HStore where
  top : List (String × HMember)
  deriving DecidableEq, Repr

/-- Lines 56-61 of `Survey.__init__`: the cells assigned `True` in
`self.retain`.  The source iterates `for line in f`, keeps the groups, and
then iterates `for location in list(f)` — the top-level names of the file,
not the locations of the line — assigning `self.retain[line][location] = True`. -/
def retainInit (s : HStore) : List (String × String × Bool) :=
  s.top.flatMap (fun p =>
    match p.2 with
    | HMember.group _ => s.top.map (fun q => (p.1, q.1, true))
    | HMember.dataset => [])

/-- Modelled from the spec: the read `self.retain[line][location]` of the
`AutoVivification` retention map (module `irlib/autovivification.py` is not
under src).  Per spec §3/§4.2 an absent key reads as `true`; recorded
assignments shadow earlier ones (the latest assignment wins). -/
def retainGet (cells : List (String × String × Bool)) (line loc : String) : Bool :=
  match cells.reverse.find? (fun c => c.1 == line && c.2.1 == loc) with
  | some c => c.2.2
  | none => true

/-- The state of a `Survey` object after `__init__` (lines 41-62):
`self.f` (set to `None` at line 50 and never reassigned) and the retention
cells. -/
structure SurveyState where
  f : Option HStore
  retain : List (String × String × Bool)
  deriving DecidableEq, Repr

/-- Embeds `Survey.__init__` (lines 41-62): sets `self.f = None`, raises `IOError`
when no file exists at `datafile` (before any store access), otherwise
opens the store read-only and builds the retention map.  The filesystem is
an association list from paths to store contents; `os.path.isfile` succeeds
exactly when the lookup does. -/
def surveyInit (files : List (String × HStore)) (datafile : String) :
    Except PyErr SurveyState :=
  match files.lookup datafile with
  | none => Except.error PyErr.ioError
  | some store => Except.ok ⟨none, retainInit store⟩

/-- Outcome of `Survey.WriteHDF5`: the early `return` of line 270 (the
destination is left untouched), a raised exception, or a written store. -/
inductive WriteOutcome
  | earlyReturn
  | raised (e : PyErr)
  | wrote (s : HStore)
  deriving DecidableEq, Repr

/-- The copy loop of `WriteHDF5` (lines 274-287): for every top-level group
of the source, create the group in the output (raising if it somehow
already exists, lines 278-282) and copy the locations whose retention cell
is true. -/
def writeFilteredGo (cells : List (String × String × Bool)) :
    List (String × HMember) → List (String × HMember) →
      Except PyErr (List (String × HMember))
  | out, [] => Except.ok out
  | out, (_, HMember.dataset) :: rest => writeFilteredGo cells out rest
  | out, (name, HMember.group locs) :: rest =>
      if (out.map Prod.fst).contains name then
        Except.error PyErr.exceptionRaised
      else
        writeFilteredGo cells
          (out ++ [(name, HMember.group (locs.filter
            (fun loc => retainGet cells name loc.name)))]) rest

/-- Embeds `Survey.WriteHDF5` (lines 256-288): if the destination exists and
`overwrite` is false, print `already exists` and return; otherwise open the
destination for writing and run the copy loop over `self.f`.  Since
`__init__` leaves `self.f = None`, `for line in self.f` raises `TypeError`
whenever the copy loop is reached. -/
def WriteHDF5 (S : SurveyState) (destExists overwrite : Bool) : WriteOutcome :=
  if destExists && !overwrite then WriteOutcome.earlyReturn
  else
    match S.f with
    | none => WriteOutcome.raised PyErr.typeError
    | some store =>
        match writeFilteredGo S.retain [] store.top with
        | Except.ok t => WriteOutcome.wrote ⟨t⟩
        | Except.error e => WriteOutcome.raised e

/-- Embeds `int(s.split('_')[1])` (line 106): sort key of `GetLines`. -/
def lineKey (n : String) : Int :=
  (((n.splitOn ("_")).getD 1 ("")).toInt?).getD 0

/-- Embeds `Survey.GetLines` (lines 102-107): the top-level names whose first four
characters are `line`, sorted ascending by the integer after the
underscore. -/
def GetLines (s : HStore) : List String :=
  ((s.top.map Prod.fst).filter (fun n => n.take 4 == "line")).mergeSort
    (fun a b => decide (lineKey a ≤ lineKey b))

/-- Embeds `Survey.GetChannelsInLine` (lines 109-127): index the sorted line list
(an out-of-range index writes to stderr and leaves `line` unbound, so the
subsequent `f[line]` raises `NameError`), raise `EmptyLineError` when the
line has no locations, otherwise return the maximum number of datacapture
groups per location. -/
def GetChannelsInLine (s : HStore) (lineno : Nat) : PyOutcome Nat :=
  match (GetLines s)[lineno]? with
  | none => PyOutcome.raised PyErr.nameError
  | some line =>
      match s.top.lookup line with
      | some (HMember.group locs) =>
          if locs.length = 0 then PyOutcome.raised PyErr.emptyLineError
          else PyOutcome.val (maxNat (locs.map (fun loc => loc.channels.length)))
      | some HMember.dataset => PyOutcome.raised PyErr.attributeError
      | none => PyOutcome.raised PyErr.keyError

/-- Sample store used for concrete evaluations: two line groups, each with a
single location. -/
def demoStore : HStore :=
  ⟨[("line_0", HMember.group [⟨"location_0", ["datacapture_0"]⟩]),
    ("line_1", HMember.group [⟨"location_0", ["datacapture_0"]⟩])]⟩

/-! ### `Survey.__getitem__` (lines 64-76) -/

/-- A Python value that can appear inside a key tuple. -/
inductive PyVal
  | vint (i : Int)
  | vstr (s : String)
  deriving DecidableEq, Repr

/-- A key passed to `Survey.__getitem__`: an integer, a tuple, or some
non-integer non-tuple object (modelled by a string). -/
inductive PyKey
  | kint (i : Int)
  | ktuple (elems : List PyVal)
  | kstr (s : String)
  deriving DecidableEq, Repr

/-- Embeds `Survey.__getitem__` (lines 64-76), parameterized by the
`self.ExtractLine(line, datacapture=dc)` call it delegates to: an integer
key delegates with `datacapture=0`; a length-2 tuple of integers delegates
with `(key[0], key[1])`; a length-2 tuple with a non-integer raises
`TypeError`; a tuple of any other length raises `ValueError`; any other key
raises `TypeError`. -/
def getitem {α : Type} (extract : Int → Int → α) : PyKey → Except PyErr α
  | PyKey.kint i => Except.ok (extract i 0)
  | PyKey.ktuple l =>
      if l.length = 2 then
        match l with
        | [PyVal.vint a, PyVal.vint b] => Except.ok (extract a b)
        | _ => Except.error PyErr.typeError
      else Except.error PyErr.valueError
  | PyKey.kstr _ => Except.error PyErr.typeError

/-! ### Theorems for claim C3 -/

theorem pyClamp_of_nonneg (n : Nat) (i : Int) (h : 0 ≤ i) :
    pyClamp n i = min i.toNat n := by
  unfold pyClamp
  split
  · omega
  · rfl

/-- C3 counterexample: with a negative lower bound the two-pass bounds
application of `ExtractLine` differs from the single half-open slice
`[lo:hi]`: with `bounds = (-2, 3)` on `[0, 1, 2, 3, 4]` the two passes give
`[1, 2]` while the single slice gives `[]`. -/
theorem extractLine_bounds_negative_counterexample :
    applyBounds (some (-2), some 3) [0, 1, 2, 3, 4] = [1, 2] ∧
    pySlice [0, 1, 2, 3, 4] (-2) 3 = ([] : List Nat) ∧
    applyBounds (some (-2), some 3) [0, 1, 2, 3, 4] ≠
      pySlice [0, 1, 2, 3, 4] (-2) 3 := by
  refine ⟨by decide, by decide, by decide⟩

theorem drop_min_length_eq (t : List α) (a n : Nat) (h : t.length ≤ n) :
    t.drop (min a t.length) = t.drop (min a n) := by
  rcases le_or_lt a t.length with h1 | h1
  · rw [min_eq_left h1, min_eq_left (le_trans h1 h)]
  · rw [min_eq_right (le_of_lt h1), List.drop_length,
      List.drop_eq_nil_of_le (by omega)]

/-- C3 (amended): for every candidate list and every non-negative bounds
pair `(lo, hi)`, applying truncate-to-first-`hi` followed by
drop-first-`lo` (as `ExtractLine` does) yields exactly the list of the
single half-open slice `[lo:hi]`. -/
theorem extractLine_bounds_eq_slice (l : List α) (lo hi : Int)
    (hlo : 0 ≤ lo) (hhi : 0 ≤ hi) :
    applyBounds (some lo, some hi) l = pySlice l lo hi := by
  show (l.take (pyClamp l.length hi)).drop
      (pyClamp (l.take (pyClamp l.length hi)).length lo) =
    (l.take (pyClamp l.length hi)).drop (pyClamp l.length lo)
  rw [pyClamp_of_nonneg _ _ hlo, pyClamp_of_nonneg _ _ hlo]
  exact drop_min_length_eq _ lo.toNat l.length
    (by rw [List.length_take]; omega)

/-- C3 witness: `bounds = (1, 3)` on a 5-element sorted candidate list keeps
exactly the records at sorted positions 1 and 2. -/
theorem extractLine_bounds_eq_slice_witness :
    applyBounds (some 1, some 3) [10, 11, 12, 13, 14] =
      pySlice [10, 11, 12, 13, 14] 1 3 ∧
    pySlice [10, 11, 12, 13, 14] 1 3 = [11, 12] :=
  ⟨extractLine_bounds_eq_slice [10, 11, 12, 13, 14] 1 3 (by decide) (by decide),
    by decide⟩

/-! ### Lemmas about `maxNat` -/

theorem foldl_max_init_le (l : List Nat) : ∀ a, a ≤ l.foldl Nat.max a := by
  induction l with
  | nil => intro a; exact Nat.le_refl a
  | cons x xs ih =>
      intro a
      exact Nat.le_trans (Nat.le_max_left a x) (ih (Nat.max a x))

theorem le_foldl_max (l : List Nat) : ∀ a, ∀ x ∈ l, x ≤ l.foldl Nat.max a := by
  induction l with
  | nil => intro a x h; cases h
  | cons y ys ih =>
      intro a x h
      rcases List.mem_cons.mp h with h | h
      · subst h
        exact Nat.le_trans (Nat.le_max_right a x) (foldl_max_init_le ys _)
      · exact ih (Nat.max a y) x h

theorem foldl_max_mem (l : List Nat) : ∀ a, l.foldl Nat.max a = a ∨ l.foldl Nat.max a ∈ l := by
  induction l with
  | nil => intro a; left; rfl
  | cons y ys ih =>
      intro a
      rcases ih (Nat.max a y) with h | h
      · rw [List.foldl_cons, h]
        rcases Nat.le_total a y with h' | h'
        · right
          have hy : Nat.max a y = y := Nat.max_eq_right h'
          rw [hy]
          exact List.mem_cons_self y ys
        · left
          exact Nat.max_eq_left h'
      · right; exact List.mem_cons_of_mem y h

theorem le_maxNat (l : List Nat) (x : Nat) (h : x ∈ l) : x ≤ maxNat l :=
  le_foldl_max l 0 x h

/-! ### Lemmas about the assembly loop of `ExtractArr` -/

theorem assembleLoop_length (dss : List (List Int)) :
    ∀ (i : Nat) (arr : List (List Int)),
      ((List.enumFrom i dss).foldl assembleStep arr).length = arr.length := by
  induction dss with
  | nil => intro i arr; rfl
  | cons x rest ih =>
      intro i arr
      rw [List.enumFrom_cons, List.foldl_cons, ih (i + 1)]
      show (arr.set i (npAssign (arr.getD i []) x)).length = arr.length
      rw [List.length_set]

theorem getD_set_eq (arr : List (List Int)) (i j : Nat) (v : List Int) :
    (arr.set i v).getD j [] =
      if i = j ∧ i < arr.length then v else arr.getD j [] := by
  rw [List.getD_eq_getElem?_getD, List.getD_eq_getElem?_getD, List.getElem?_set]
  by_cases h1 : i = j
  · subst h1
    by_cases h2 : i < arr.length
    · rw [if_pos rfl, if_pos h2, if_pos ⟨rfl, h2⟩]; rfl
    · rw [if_pos rfl, if_neg h2, if_neg (by intro hc; exact h2 hc.2)]
      rw [List.getElem?_eq_none (by omega)]
  · rw [if_neg h1, if_neg (by intro hc; exact h1 hc.1)]

theorem assembleLoop_getD (dss : List (List Int)) :
    ∀ (i : Nat) (arr : List (List Int)) (j : Nat),
      ((List.enumFrom i dss).foldl assembleStep arr).getD j [] =
      if i ≤ j ∧ j - i < dss.length ∧ j < arr.length then
        npAssign (arr.getD j []) (dss.getD (j - i) [])
      else arr.getD j [] := by
  induction dss with
  | nil =>
      intro i arr j
      rw [if_neg (by intro hc; exact absurd hc.2.1 (by simp))]
      rfl
  | cons x rest ih =>
      intro i arr j
      rw [List.enumFrom_cons, List.foldl_cons]
      have hstep : assembleStep arr (i, x) = arr.set i (npAssign (arr.getD i []) x) := rfl
      rw [hstep, ih (i + 1) (arr.set i (npAssign (arr.getD i []) x)) j,
        List.length_set]
      simp only [getD_set_eq, List.length_cons]
      by_cases hA : i = j ∧ i < arr.length
      · rcases hA with ⟨hij, hlt⟩
        subst hij
        rw [if_neg (show ¬(i + 1 ≤ i ∧ i - (i + 1) < rest.length ∧ i < arr.length)
              by omega),
          if_pos ⟨rfl, hlt⟩,
          if_pos (show i ≤ i ∧ i - i < rest.length + 1 ∧ i < arr.length by omega),
          Nat.sub_self, List.getD_cons_zero]
      · simp only [if_neg hA]
        by_cases hB : i ≤ j ∧ j - i < rest.length + 1 ∧ j < arr.length
        · have hij : i ≠ j := by
            intro h
            exact hA ⟨h, by omega⟩
          rw [if_pos (show i + 1 ≤ j ∧ j - (i + 1) < rest.length ∧ j < arr.length
                by omega),
            if_pos hB,
            show j - i = (j - (i + 1)) + 1 by omega,
            List.getD_cons_succ]
        · rw [if_neg (show ¬(i + 1 ≤ j ∧ j - (i + 1) < rest.length ∧ j < arr.length)
                by omega),
            if_neg hB]

theorem assembleArr_length (dss : List (List Int)) :
    (assembleArr dss).length = dss.length := by
  unfold assembleArr
  rw [show List.enum dss = List.enumFrom 0 dss from rfl, assembleLoop_length,
    List.length_replicate]

theorem getD_map_samples (ds : List HNode) (j : Nat) (hj : j < ds.length) :
    (ds.map (fun d => d.samples)).getD j [] = (ds.get ⟨j, hj⟩).samples := by
  rw [List.getD_eq_getElem?_getD, List.getElem?_map,
    List.getElem?_eq_getElem hj]
  rfl

theorem assembleArr_row (dss : List (List Int)) (j : Nat) (hj : j < dss.length) :
    (assembleArr dss).getD j [] =
      dss.getD j [] ++
        List.replicate (maxNat (dss.map List.length) - (dss.getD j []).length) 0 := by
  unfold assembleArr
  rw [show List.enum dss = List.enumFrom 0 dss from rfl, assembleLoop_getD]
  rw [if_pos ⟨Nat.zero_le j, by simpa using hj, by rw [List.length_replicate]; exact hj⟩]
  have hz : (List.replicate dss.length
      (List.replicate (maxNat (dss.map List.length)) (0 : Int))).getD j [] =
      List.replicate (maxNat (dss.map List.length)) (0 : Int) := by
    rw [List.getD_eq_getElem?_getD, List.getElem?_replicate, if_pos hj]
    rfl
  rw [Nat.sub_zero, hz]
  unfold npAssign
  rw [List.drop_replicate]

theorem getD_padded (xs : List Int) (m i : Nat) :
    (xs ++ List.replicate (m - xs.length) 0).getD i 0 = xs.getD i 0 := by
  rw [List.getD_eq_getElem?_getD, List.getD_eq_getElem?_getD, List.getElem?_append]
  by_cases h : i < xs.length
  · rw [if_pos h]
  · rw [if_neg h, List.getElem?_replicate, List.getElem?_eq_none (by omega)]
    split <;> rfl

theorem getD_range_map {β : Type} (f : Nat → β) (m i : Nat) (hi : i < m) (d : β) :
    ((List.range m).map f).getD i d = f i := by
  rw [List.getD_eq_getElem?_getD, List.getElem?_map, List.getElem?_range hi]
  rfl

/-! ### Theorems for claim C1 -/

/-- C1: for every non-empty list of kept dataset records (all of whose sample
reads succeed), `ExtractLine`'s assembly step returns the transpose of the
zero-initialized `k × max(n_i)` array whose row `j` holds record `j`'s
samples left-aligned: the result has `max(n_i)` rows (sample axis), each
of length `k` (record axis), entry `(i, j)` is sample `i` of record `j`
when `i < n_j`, and `0` in the zero-padded tail when `n_j ≤ i`. -/
theorem extractLine_assembly (ds : List HNode) (hne : ds ≠ [])
    (hread : ∀ d ∈ ds, d.readOk = true) :
    ∃ t, ExtractArr ds = PyOutcome.val t ∧
      t = npTranspose (maxSamples ds) ds.length
            (assembleArr (ds.map (fun d => d.samples))) ∧
      t.length = maxSamples ds ∧
      (∀ row ∈ t, row.length = ds.length) ∧
      ∀ i j (hi : i < maxSamples ds) (hj : j < ds.length),
        (t.getD i []).getD j 0 = (ds.get ⟨j, hj⟩).samples.getD i 0 ∧
        ((ds.get ⟨j, hj⟩).samples.length ≤ i → (t.getD i []).getD j 0 = 0) := by
  have hie : ds.isEmpty = false := by
    cases ds with
    | nil => exact absurd rfl hne
    | cons d ds => rfl
  have hall : ds.all (fun d => d.readOk) = true := List.all_eq_true.mpr hread
  have hval : ExtractArr ds = PyOutcome.val (npTranspose (maxSamples ds) ds.length
      (assembleArr (ds.map (fun d => d.samples)))) := by
    unfold ExtractArr
    rw [hie, hall]
    rfl
  refine ⟨_, hval, rfl, ?_, ?_, ?_⟩
  · unfold npTranspose
    rw [List.length_map, List.length_range]
  · intro row hrow
    unfold npTranspose at hrow
    rcases List.mem_map.mp hrow with ⟨i, _, hrow⟩
    rw [← hrow, List.length_map, List.length_range]
  · intro i j hi hj
    have hmap : (ds.map (fun d => d.samples)).map List.length =
        ds.map (fun d => d.samples.length) := by
      rw [List.map_map]; rfl
    have hjm : j < (ds.map (fun d => d.samples)).length := by
      rw [List.length_map]; exact hj
    have hrow := assembleArr_row (ds.map (fun d => d.samples)) j hjm
    rw [getD_map_samples ds j hj] at hrow
    have hentry : ((npTranspose (maxSamples ds) ds.length
        (assembleArr (ds.map (fun d => d.samples)))).getD i []).getD j 0 =
        (ds.get ⟨j, hj⟩).samples.getD i 0 := by
      unfold npTranspose
      rw [getD_range_map _ _ _ hi, getD_range_map _ _ _ hj, hrow, hmap]
      exact getD_padded _ _ _
    refine ⟨hentry, fun hlen => ?_⟩
    rw [hentry, List.getD_eq_default _ _ hlen]

/-- C1 witness: assembling three records with sample lengths `[5, 3, 7]`
succeeds; the sample axis of the transposed result has length 7. -/
theorem extractLine_assembly_witness :
    ∃ t, ExtractArr
        [⟨["location_0", "datacapture_0", "echogram_0"], true, true, [1, 2, 3, 4, 5]⟩,
         ⟨["location_1", "datacapture_0", "echogram_0"], true, true, [6, 7, 8]⟩,
         ⟨["location_2", "datacapture_0", "echogram_0"], true, true, [9, 10, 11, 12, 13, 14, 15]⟩] =
        PyOutcome.val t ∧
      t.length = 7 := by
  obtain ⟨t, h1, _, h3, _⟩ := extractLine_assembly
    [⟨["location_0", "datacapture_0", "echogram_0"], true, true, [1, 2, 3, 4, 5]⟩,
     ⟨["location_1", "datacapture_0", "echogram_0"], true, true, [6, 7, 8]⟩,
     ⟨["location_2", "datacapture_0", "echogram_0"], true, true, [9, 10, 11, 12, 13, 14, 15]⟩]
    (by decide) (by decide)
  exact ⟨t, h1, by rw [h3]; decide⟩

/-! ### Theorems for claim C2 -/

/-- C2 counterexample: on an empty kept-record list `ExtractLine`'s assembly
step executes a bare `return` (Python `None`) after catching the
`ValueError` from `max([])`; it does not raise an I/O-class error. -/
theorem extractLine_empty_counterexample :
    ExtractArr [] = PyOutcome.noneReturn ∧
    (PyOutcome.noneReturn : PyOutcome (List (List Int))) ≠
      PyOutcome.raised PyErr.ioError := by
  refine ⟨rfl, by decide⟩

/-- C2 (amended): if the kept-record list after filtering and bounds is
empty, or reading any record's samples fails, `ExtractLine` writes a
diagnostic and returns `None` (a bare `return`, not an I/O-class error),
and whenever it does return an array that array is rectangular — never
partial or ragged. -/
theorem extractLine_failure_returns_none (ds : List HNode) :
    ((ds = [] ∨ ∃ d ∈ ds, d.readOk = false) → ExtractArr ds = PyOutcome.noneReturn) ∧
    (∀ t, ExtractArr ds = PyOutcome.val t →
      t.length = maxSamples ds ∧ ∀ row ∈ t, row.length = ds.length) := by
  constructor
  · intro h
    rcases h with h | ⟨d, hd, hfail⟩
    · subst h; rfl
    · have hall : ds.all (fun d => d.readOk) = false := by
        by_contra hc
        have := List.all_eq_true.mp (Bool.of_not_eq_false hc) d hd
        rw [hfail] at this
        exact Bool.false_ne_true this
      unfold ExtractArr
      rw [hall]
      have hie : ds.isEmpty = false := by
        cases ds with
        | nil => cases hd
        | cons x xs => rfl
      rw [hie]
      rfl
  · intro t ht
    unfold ExtractArr at ht
    by_cases hie : ds.isEmpty
    · rw [if_pos hie] at ht; cases ht
    · rw [if_neg hie] at ht
      by_cases hall : ds.all (fun d => d.readOk)
      · rw [if_pos hall] at ht
        cases ht
        constructor
        · unfold npTranspose
          rw [List.length_map, List.length_range]
        · intro row hrow
          unfold npTranspose at hrow
          rcases List.mem_map.mp hrow with ⟨i, _, hrow⟩
          rw [← hrow, List.length_map, List.length_range]
      · rw [if_neg hall] at ht; cases ht

/-- C2 witness: a singleton kept-record list whose sample read fails makes
the assembly step return `None`. -/
theorem extractLine_failure_returns_none_witness :
    ExtractArr [⟨["location_0", "datacapture_0", "echogram_0"], true, false, []⟩] =
      PyOutcome.noneReturn :=
  (extractLine_failure_returns_none
    [⟨["location_0", "datacapture_0", "echogram_0"], true, false, []⟩]).1
    (Or.inr ⟨⟨["location_0", "datacapture_0", "echogram_0"], true, false, []⟩,
      List.mem_singleton.mpr rfl, rfl⟩)

/-! ### Theorems for claim C4 -/

theorem locKey_le_trans (a b c : HNode)
    (hab : decide (locKey a ≤ locKey b) = true)
    (hbc : decide (locKey b ≤ locKey c) = true) :
    decide (locKey a ≤ locKey c) = true := by
  simp only [decide_eq_true_eq] at *
  omega

theorem locKey_le_total (a b : HNode) :
    (decide (locKey a ≤ locKey b) || decide (locKey b ≤ locKey a)) = true := by
  simp only [Bool.or_eq_true, decide_eq_true_eq]
  exact Int.le_total _ _

/-- C4: `ExtractLine` accepts the channel selector either as a single
integer or as an iterable of integers (a single integer behaves exactly as
the one-element iterable); the kept list is a permutation of exactly the
visited nodes that are datasets, whose name does not contain `"picked"`,
and whose parent channel-group component is an allowed datacapture; and it
is ordered ascending by the integer location index embedded in each path,
across the whole mixed-channel set. -/
theorem extractLine_channel_selection (line : Int) (nodes : List HNode)
    (sel : PySelector) :
    (∀ i : Int, ExtractDatasets line nodes (.single i) =
      ExtractDatasets line nodes (.iter [i])) ∧
    (ExtractDatasets line nodes sel).Perm
      (nodes.filter (keepDataset line (allowedDatacaptures sel))) ∧
    (∀ d, d ∈ ExtractDatasets line nodes sel ↔
      d ∈ nodes ∧ d.isDataset = true ∧
      strContains (dsFullName line d) ("picked") = false ∧
      (allowedDatacaptures sel).contains (parentGroupName d) = true) ∧
    List.Pairwise (fun a b => locKey a ≤ locKey b)
      (ExtractDatasets line nodes sel) := by
  refine ⟨fun i => rfl, List.mergeSort_perm _ _, ?_, ?_⟩
  · intro d
    rw [ExtractDatasets, (List.mergeSort_perm _ _).mem_iff, List.mem_filter,
      keepDataset]
    simp only [Bool.and_eq_true, Bool.not_eq_true']
    tauto
  · have h := List.sorted_mergeSort locKey_le_trans locKey_le_total
      (nodes.filter (keepDataset line (allowedDatacaptures sel)))
    exact h.imp (fun hab => of_decide_eq_true hab)

/-! ### Lemmas about `decChars` and `rjust4`, and theorems for claim C7 -/

theorem decChars_of_lt (n : Nat) (h : n < 10) :
    decChars n = [Char.ofNat (48 + n)] := by
  unfold decChars
  rw [dif_pos h]

theorem decChars_of_ge (n : Nat) (h : ¬ n < 10) :
    decChars n = decChars (n / 10) ++ [Char.ofNat (48 + n % 10)] := by
  conv_lhs => rw [decChars]
  rw [dif_neg h]

theorem charVal_ofNat (d : Nat) (h : d < 10) :
    (Char.ofNat (48 + d)).toNat - 48 = d := by
  interval_cases d <;> decide

theorem foldl_decode_decChars (n : Nat) :
    ∀ a, (decChars n).foldl (fun a c => 10 * a + (c.toNat - 48)) a =
      a * 10 ^ (decChars n).length + n := by
  induction n using Nat.strong_induction_on with
  | _ n ih =>
    intro a
    by_cases h : n < 10
    · rw [decChars_of_lt n h]
      simp only [List.foldl_cons, List.foldl_nil, List.length_cons,
        List.length_nil]
      rw [charVal_ofNat n h, pow_one]
      omega
    · rw [decChars_of_ge n h, List.foldl_append]
      simp only [List.foldl_cons, List.foldl_nil]
      rw [ih (n / 10) (Nat.div_lt_self (by omega) (by omega)) a,
        charVal_ofNat (n % 10) (Nat.mod_lt _ (by omega)),
        List.length_append, List.length_cons, List.length_nil]
      have hdm : 10 * (n / 10) + n % 10 = n := Nat.div_add_mod n 10
      calc 10 * (a * 10 ^ (decChars (n / 10)).length + n / 10) + n % 10
          = a * (10 ^ (decChars (n / 10)).length * 10) +
              (10 * (n / 10) + n % 10) := by ring
        _ = a * 10 ^ ((decChars (n / 10)).length + (0 + 1)) + n := by
              rw [pow_succ, hdm]

theorem decVal_replicate_zero (k : Nat) :
    decValChars (List.replicate k '0') = 0 := by
  unfold decValChars
  induction k with
  | zero => rfl
  | succ k ih =>
      rw [List.replicate_succ, List.foldl_cons]
      have hc : (10 * 0 + ('0'.toNat - 48)) = 0 := by decide
      rw [hc]
      exact ih

theorem decVal_rjust4_decChars (n : Nat) :
    decValChars (rjust4 (decChars n)) = n := by
  unfold decValChars rjust4
  rw [List.foldl_append]
  have hz := decVal_replicate_zero (4 - (decChars n).length)
  unfold decValChars at hz
  rw [hz]
  have h := foldl_decode_decChars n 0
  rw [h, Nat.zero_mul, Nat.zero_add]

theorem rjust4_decChars_inj (a b : Nat)
    (h : rjust4 (decChars a) = rjust4 (decChars b)) : a = b := by
  have hd := congrArg decValChars h
  rw [decVal_rjust4_decChars, decVal_rjust4_decChars] at hd
  exact hd

theorem decChars_length_le : ∀ k n, n < 10 ^ (k + 1) → (decChars n).length ≤ k + 1 := by
  intro k
  induction k with
  | zero =>
      intro n h
      rw [decChars_of_lt n (by omega)]
      exact Nat.le_refl 1
  | succ k ih =>
      intro n h
      by_cases hn : n < 10
      · rw [decChars_of_lt n hn]
        simp
      · rw [decChars_of_ge n hn, List.length_append, List.length_cons,
          List.length_nil]
        have hp : (10 : Nat) ^ (k + 1) * 10 = 10 ^ (k + 2) := (pow_succ 10 (k + 1)).symm
        have hdiv : n / 10 < 10 ^ (k + 1) := by
          rw [Nat.div_lt_iff_lt_mul (by omega)]
          omega
        have := ih (n / 10) hdiv
        omega

theorem rjust4_decChars_length (n : Nat) (h : n ≤ 9999) :
    (rjust4 (decChars n)).length = 4 := by
  have hlen : (decChars n).length ≤ 4 := by
    have : n < 10 ^ (3 + 1) := by omega
    exact decChars_length_le 3 n this
  unfold rjust4
  rw [List.length_append, List.length_replicate]
  omega

/-- C7: the FID encoding is a pure deterministic function of the
4-component path — encoding the same path twice yields identical 16-digit
FIDs built by zero-padded 4-digit concatenation — and for components all
at most 9999 two paths have equal FIDs exactly when they are equal (so
distinct paths yield distinct FIDs). -/
theorem HDFpath2fid_deterministic_injective (p q : ContainerPath)
    (hp : p.lin ≤ 9999 ∧ p.loc ≤ 9999 ∧ p.dc ≤ 9999 ∧ p.ec ≤ 9999)
    (hq : q.lin ≤ 9999 ∧ q.loc ≤ 9999 ∧ q.dc ≤ 9999 ∧ q.ec ≤ 9999) :
    HDFpath2fid p = HDFpath2fid p ∧
    (HDFpath2fid p).length = 16 ∧
    (HDFpath2fid p = HDFpath2fid q ↔ p = q) := by
  obtain ⟨hp1, hp2, hp3, hp4⟩ := hp
  obtain ⟨hq1, hq2, hq3, hq4⟩ := hq
  refine ⟨rfl, ?_, ?_, ?_⟩
  · show (rjust4 (decChars p.lin) ++ (rjust4 (decChars p.loc) ++
      (rjust4 (decChars p.dc) ++ rjust4 (decChars p.ec)))).length = 16
    rw [List.length_append, List.length_append, List.length_append,
      rjust4_decChars_length _ hp1, rjust4_decChars_length _ hp2,
      rjust4_decChars_length _ hp3, rjust4_decChars_length _ hp4]
  · intro h
    have hdata := congrArg String.data h
    have h1 := List.append_inj hdata
      (by rw [rjust4_decChars_length _ hp1, rjust4_decChars_length _ hq1])
    have h2 := List.append_inj h1.2
      (by rw [rjust4_decChars_length _ hp2, rjust4_decChars_length _ hq2])
    have h3 := List.append_inj h2.2
      (by rw [rjust4_decChars_length _ hp3, rjust4_decChars_length _ hq3])
    have e1 := rjust4_decChars_inj _ _ h1.1
    have e2 := rjust4_decChars_inj _ _ h2.1
    have e3 := rjust4_decChars_inj _ _ h3.1
    have e4 := rjust4_decChars_inj _ _ h3.2
    cases p
    cases q
    simp only [ContainerPath.mk.injEq]
    exact ⟨e1, e2, e3, e4⟩
  · intro h
    rw [h]

/-- C7 witness: concrete distinct paths `(1, 2, 3, 4)` and `(1, 2, 3, 5)`
within the digit-width limit have 16-character FIDs, and their FIDs are
equal exactly when the paths are equal (hence here: distinct). -/
theorem HDFpath2fid_deterministic_injective_witness :
    (HDFpath2fid ⟨1, 2, 3, 4⟩).length = 16 ∧
    (HDFpath2fid ⟨1, 2, 3, 4⟩ = HDFpath2fid ⟨1, 2, 3, 5⟩ ↔
      (⟨1, 2, 3, 4⟩ : ContainerPath) = ⟨1, 2, 3, 5⟩) := by
  obtain ⟨_, h2, h3⟩ := HDFpath2fid_deterministic_injective ⟨1, 2, 3, 4⟩ ⟨1, 2, 3, 5⟩
    (by exact ⟨by decide, by decide, by decide, by decide⟩)
    (by exact ⟨by decide, by decide, by decide, by decide⟩)
  exact ⟨h2, h3⟩

/-! ### Theorem for claim C5 -/

/-- C5: evaluating the retention-map initialization of `Survey.__init__` on
a store with two line groups `line_0`, `line_1`, each holding a single
location group `location_0`.  Because the inner loop iterates
`for location in list(f)` — the top-level names — rather than
`list(f[line])`, the cells set to true pair each line with every top-level
name; the pair `(line_0, location_0)` claimed by the spec is absent. -/
theorem retainInit_pairs_lines_not_locations :
    retainInit demoStore =
      [("line_0", "line_0", true), ("line_0", "line_1", true),
       ("line_1", "line_0", true), ("line_1", "line_1", true)] ∧
    ("line_0", "location_0", true) ∉ retainInit demoStore ∧
    ("line_1", "location_0", true) ∉ retainInit demoStore := by
  refine ⟨by decide, by decide, by decide⟩

/-! ### Theorem for claim C6 -/

/-- C6: a `Survey` constructed by `__init__` always has `self.f = None`, so
while `WriteHDF5` on an existing destination without `overwrite` does
return early leaving the destination untouched, the write path itself
(overwrite permitted, or destination absent) raises `TypeError` at
`for line in self.f` instead of writing the filtered store. -/
theorem writeHDF5_write_path_raises_typeError :
    surveyInit [("survey.h5", demoStore)] ("survey.h5") =
      Except.ok ⟨none, retainInit demoStore⟩ ∧
    WriteHDF5 ⟨none, retainInit demoStore⟩ true false =
      WriteOutcome.earlyReturn ∧
    WriteHDF5 ⟨none, retainInit demoStore⟩ true true =
      WriteOutcome.raised PyErr.typeError ∧
    WriteHDF5 ⟨none, retainInit demoStore⟩ false false =
      WriteOutcome.raised PyErr.typeError ∧
    (∀ s : HStore, WriteHDF5 ⟨none, retainInit demoStore⟩ false false ≠
      WriteOutcome.wrote s) := by
  refine ⟨rfl, rfl, rfl, rfl, fun s h => by cases h⟩

/-! ### Theorems for claim C8 -/

/-- C8: for every line of the store (any index that resolves in the sorted
line list to a line group), `GetChannelsInLine` raises `EmptyLineError` —
not an unrelated fault, nor a returned 0 — when the line has zero
locations, and otherwise returns the maximum, across the line's locations,
of the number of channel groups under each location (an upper bound that is
attained). -/
theorem getChannelsInLine_max_or_emptyLine (s : HStore) (lineno : Nat)
    (line : String) (locs : List HLocation)
    (hline : (GetLines s)[lineno]? = some line)
    (hmem : s.top.lookup line = some (HMember.group locs)) :
    (locs = [] →
      GetChannelsInLine s lineno = PyOutcome.raised PyErr.emptyLineError) ∧
    (locs ≠ [] →
      GetChannelsInLine s lineno =
        PyOutcome.val (maxNat (locs.map (fun loc => loc.channels.length))) ∧
      (∀ loc ∈ locs, loc.channels.length ≤
        maxNat (locs.map (fun loc => loc.channels.length))) ∧
      ∃ loc ∈ locs, loc.channels.length =
        maxNat (locs.map (fun loc => loc.channels.length))) := by
  have hgc : GetChannelsInLine s lineno =
      (if locs.length = 0 then PyOutcome.raised PyErr.emptyLineError
       else PyOutcome.val (maxNat (locs.map (fun loc => loc.channels.length)))) := by
    simp only [GetChannelsInLine, hline, hmem]
  constructor
  · intro h
    subst h
    rw [hgc]
    rfl
  · intro h
    have hlen : locs.length ≠ 0 := by
      intro hc
      exact h (List.length_eq_zero.mp hc)
    refine ⟨by rw [hgc, if_neg hlen], ?_, ?_⟩
    · intro loc hloc
      exact le_maxNat _ _ (List.mem_map_of_mem _ hloc)
    · rcases foldl_max_mem (locs.map (fun loc => loc.channels.length)) 0 with h0 | hm
      · rcases locs with _ | ⟨loc, rest⟩
        · exact absurd rfl h
        · refine ⟨loc, List.mem_cons_self loc rest, ?_⟩
          have hub : loc.channels.length ≤
              maxNat ((loc :: rest).map (fun loc => loc.channels.length)) :=
            le_maxNat _ _ (List.mem_map_of_mem _ (List.mem_cons_self loc rest))
          have hz : maxNat ((loc :: rest).map (fun loc => loc.channels.length)) = 0 := h0
          omega
      · rcases List.mem_map.mp hm with ⟨loc, hloc, heq⟩
        exact ⟨loc, hloc, heq⟩

/-- C8 witness: on a store with a single line `line_0` holding locations
with 1 and 2 channel groups, the channel count is 2; on a store whose only
line has zero locations, the call raises `EmptyLineError`. -/
theorem getChannelsInLine_max_or_emptyLine_witness :
    GetChannelsInLine
      ⟨[("line_0", HMember.group
          [⟨"location_0", ["datacapture_0"]⟩,
           ⟨"location_1", ["datacapture_0", "datacapture_1"]⟩])]⟩ 0 =
      PyOutcome.val 2 ∧
    GetChannelsInLine ⟨[("line_0", HMember.group [])]⟩ 0 =
      PyOutcome.raised PyErr.emptyLineError := by
  have hGLa : GetLines
      ⟨[("line_0", HMember.group
          [⟨"location_0", ["datacapture_0"]⟩,
           ⟨"location_1", ["datacapture_0", "datacapture_1"]⟩])]⟩ = ["line_0"] := by
    unfold GetLines
    rw [show ((HStore.mk [("line_0", HMember.group
          [⟨"location_0", ["datacapture_0"]⟩,
           ⟨"location_1", ["datacapture_0", "datacapture_1"]⟩])]).top.map
        Prod.fst).filter (fun n => n.take 4 == "line") = ["line_0"] from by decide]
    exact List.perm_singleton.mp (List.mergeSort_perm ["line_0"] _)
  have hGLb : GetLines ⟨[("line_0", HMember.group [])]⟩ = ["line_0"] := by
    unfold GetLines
    rw [show ((HStore.mk [("line_0", HMember.group [])]).top.map
        Prod.fst).filter (fun n => n.take 4 == "line") = ["line_0"] from by decide]
    exact List.perm_singleton.mp (List.mergeSort_perm ["line_0"] _)
  constructor
  · have h := (getChannelsInLine_max_or_emptyLine
      ⟨[("line_0", HMember.group
          [⟨"location_0", ["datacapture_0"]⟩,
           ⟨"location_1", ["datacapture_0", "datacapture_1"]⟩])]⟩ 0 ("line_0")
      [⟨"location_0", ["datacapture_0"]⟩,
       ⟨"location_1", ["datacapture_0", "datacapture_1"]⟩]
      (by rw [hGLa]; rfl) (by decide)).2 (by decide)
    rw [h.1]
    decide
  · exact (getChannelsInLine_max_or_emptyLine ⟨[("line_0", HMember.group [])]⟩ 0
      ("line_0") [] (by rw [hGLb]; rfl) (by decide)).1 rfl

/-! ### Theorems for claim C9 -/

/-- C9: constructing a `Survey` on a path that does not name an existing
file raises `IOError` (before any store access — the store is never
consulted), and no survey state (hence no retention map) is produced. -/
theorem surveyInit_missing_file_raises (files : List (String × HStore))
    (datafile : String) (h : files.lookup datafile = none) :
    surveyInit files datafile = Except.error PyErr.ioError := by
  unfold surveyInit
  rw [h]

/-- C9 witness: on an empty filesystem the construction raises `IOError`. -/
theorem surveyInit_missing_file_raises_witness :
    surveyInit [] ("missing.h5") = Except.error PyErr.ioError :=
  surveyInit_missing_file_raises [] "missing.h5" rfl

/-! ### Theorems for claim C10 -/

/-- C10: `__getitem__` delegates to line extraction — an integer key `i`
yields `ExtractLine(i, datacapture=0)` and an integer pair `(i, j)` yields
`ExtractLine(i, datacapture=j)`; a length-2 tuple containing a non-integer
raises `TypeError`, a tuple of any other length raises `ValueError`, and
any other key raises `TypeError`; every error is produced identically for
any delegate, i.e. without touching the store. -/
theorem getitem_delegates {α : Type} (extract extract' : Int → Int → α)
    (i j : Int) (l : List PyVal) (s : String) :
    getitem extract (PyKey.kint i) = Except.ok (extract i 0) ∧
    getitem extract (PyKey.ktuple [PyVal.vint i, PyVal.vint j]) =
      Except.ok (extract i j) ∧
    (l.length ≠ 2 →
      getitem extract (PyKey.ktuple l) = Except.error PyErr.valueError) ∧
    (l.length = 2 → (∀ a b : Int, l ≠ [PyVal.vint a, PyVal.vint b]) →
      getitem extract (PyKey.ktuple l) = Except.error PyErr.typeError) ∧
    getitem extract (PyKey.kstr s) = Except.error PyErr.typeError ∧
    (∀ e : PyErr, getitem extract (PyKey.ktuple l) = Except.error e →
      getitem extract' (PyKey.ktuple l) = Except.error e) := by
  refine ⟨rfl, rfl, ?_, ?_, rfl, ?_⟩
  · intro hlen
    simp only [getitem]
    rw [if_neg hlen]
  · intro hlen hni
    rcases l with _ | ⟨a, l⟩
    · simp at hlen
    rcases l with _ | ⟨b, l⟩
    · simp at hlen
    rcases l with _ | ⟨c, l⟩
    · cases a with
      | vint av =>
          cases b with
          | vint bv => exact absurd rfl (hni av bv)
          | vstr bs => rfl
      | vstr as' =>
          cases b <;> rfl
    · simp at hlen
  · intro e he
    by_cases hlen : l.length = 2
    · rcases l with _ | ⟨a, l⟩
      · simp at hlen
      rcases l with _ | ⟨b, l⟩
      · simp at hlen
      rcases l with _ | ⟨c, l⟩
      · cases a with
        | vint av =>
            cases b with
            | vint bv => exact absurd he (by simp [getitem])
            | vstr bs => exact he
        | vstr as' =>
            cases b <;> exact he
      · simp at hlen
    · have c1 : getitem extract (PyKey.ktuple l) = Except.error PyErr.valueError := by
        simp only [getitem]
        rw [if_neg hlen]
      have c2 : getitem extract' (PyKey.ktuple l) = Except.error PyErr.valueError := by
        simp only [getitem]
        rw [if_neg hlen]
      rw [c1] at he
      rw [c2]
      exact he

/-- C10 witness: concrete delegation and error cases of `__getitem__`. -/
theorem getitem_delegates_witness :
    getitem (fun a b : Int => (a, b)) (PyKey.kint 5) = Except.ok ((5 : Int), (0 : Int)) ∧
    getitem (fun a b : Int => (a, b)) (PyKey.ktuple [PyVal.vint 1]) =
      Except.error PyErr.valueError ∧
    getitem (fun a b : Int => (a, b)) (PyKey.kstr ("x")) =
      Except.error PyErr.typeError := by
  have h := getitem_delegates (fun a b : Int => (a, b))
    (fun _ _ : Int => ((0 : Int), (0 : Int))) 5 7 [PyVal.vint 1] ("x")
  exact ⟨h.1, h.2.2.1 (by decide), h.2.2.2.2.1⟩
